import Mathlib

/-!
Shallow embedding of the tic-tac-toe core found in
`src/tic_tac_toe_frontend/src/App.js`, together with theorems settling the
specification claims about it.

A board cell holds `'X'`, `'O'` or `null` in the source; here a cell is
`Option Mark`.  A board is a JavaScript array, embedded as `List (Option Mark)`;
reads past the end of a JavaScript array yield `undefined` (falsy, and
`== null`), which `List.getD _ _ none` reproduces, and writes past the end
extend the array, which `jsSet` reproduces.
-/

/-- The two marks, `'X'` and `'O'` in the source. -/
inductive Mark where
  | X : Mark
  | O : Mark
deriving DecidableEq, Repr, Fintype

/-- A cell of the board: `'X'`, `'O'` or `null`. -/
abbrev Cell := Option Mark

/-- A board: the source keeps a 9-element array; the embedding allows any
length because JavaScript array writes can extend it. -/
abbrev Board := List Cell

/-- `aiPlayer === 'X' ? 'O' : 'X'` — the opposing mark. -/
def other : Mark → Mark
  | Mark.X => Mark.O
  | Mark.O => Mark.X

/-- Reading `board[i]` in JavaScript: out-of-range reads give `undefined`,
embedded as `none`. -/
def jsGet (b : Board) (i : Nat) : Cell := b.getD i none

/-- Writing `copy[i] = v` in JavaScript: in-range writes update the cell,
writes past the end pad with holes (read back as `undefined`/`none`) and
extend the array to length `i + 1`. -/
def jsSet (b : Board) (i : Nat) (v : Cell) : Board :=
  if i < b.length then b.set i v
  else b ++ List.replicate (i - b.length) none ++ [v]

/-- `LINES` from `App.js`: the 3 rows, then the 3 columns, then the 2
diagonals, in source order. -/
def LINES : List (Nat × Nat × Nat) :=
  [(0, 1, 2), (3, 4, 5), (6, 7, 8),
   (0, 3, 6), (1, 4, 7), (2, 5, 8),
   (0, 4, 8), (2, 4, 6)]

/-- The result record of `calculateWinner`:
`{ winner: 'X'|'O'|null, line: number[]|null }`. -/
structure WinResult where
  winner : Option Mark
  line : Option (Nat × Nat × Nat)
deriving DecidableEq, Repr

/-- The `for (const [a, b, c] of LINES)` loop body of `calculateWinner`:
return the first line whose three cells are truthy and equal, else fall
through. -/
def winScan (board : Board) : List (Nat × Nat × Nat) → WinResult
  | [] => ⟨none, none⟩
  | (a, b, c) :: rest =>
    match jsGet board a with
    | some m =>
      if jsGet board b = some m ∧ jsGet board c = some m then
        ⟨some m, some (a, b, c)⟩
      else
        winScan board rest
    | none => winScan board rest

/-- `calculateWinner(board)` from `App.js`. -/
def calculateWinner (board : Board) : WinResult :=
  winScan board LINES

/-- `availableMoves(board)` from `App.js`: indices `i < board.length` whose
cell is falsy, in ascending order. -/
def availableMoves (board : Board) : List Nat :=
  (List.range board.length).filter (fun i => jsGet board i = none)

/-- The test of the `aiMove` hypothetical-placement loops:
`copy = [...board]; copy[m] = mk;` then compare
`calculateWinner(copy).winner === mk`. -/
def winsAt (board : Board) (mk : Mark) (m : Nat) : Bool :=
  decide ((calculateWinner (jsSet board m (some mk))).winner = some mk)

/-- `const corners = [0, 2, 6, 8].filter((i) => board[i] == null)`. -/
def cornersOf (board : Board) : List Nat :=
  [0, 2, 6, 8].filter (fun i => jsGet board i = none)

/-- `const sides = [1, 3, 5, 7].filter((i) => board[i] == null)`. -/
def sidesOf (board : Board) : List Nat :=
  [1, 3, 5, 7].filter (fun i => jsGet board i = none)

/-- `aiMove(board, aiPlayer)` from `App.js`.  The two calls to
`Math.floor(Math.random() * len)` each produce an arbitrary index below
`len`; the embedding takes two arbitrary naturals `rc` (corner pick) and
`rs` (side pick) and reduces them modulo the candidate count, so every
possible random draw corresponds to some pair `(rc, rs)`. -/
def aiMove (board : Board) (aiPlayer : Mark) (rc rs : Nat) : Option Nat :=
  if (availableMoves board).length = 0 then none
  else
    match (availableMoves board).find? (winsAt board aiPlayer) with
    | some m => some m
    | none =>
      match (availableMoves board).find? (winsAt board (other aiPlayer)) with
      | some m => some m
      | none =>
        if jsGet board 4 = none then some 4
        else if (cornersOf board).length ≠ 0 then
          some ((cornersOf board).getD (rc % (cornersOf board).length) 0)
        else if (sidesOf board).length ≠ 0 then
          some ((sidesOf board).getD (rs % (sidesOf board).length) 0)
        else some ((availableMoves board).getD 0 0)

/-- `isDraw` from `App.js` (line 180):
`!winner && availableMoves(board).length === 0`. -/
def isDraw (board : Board) : Bool :=
  (calculateWinner board).winner.isNone && decide ((availableMoves board).length = 0)

/-- `'PVP'` or `'AI'`. -/
inductive GameMode where
  | PVP : GameMode
  | AI : GameMode
deriving DecidableEq, Repr

/-- The mutable state of the `App` component: `mode`, `board`, `xIsNext`
and `aiPlays` (the computer's mark). -/
structure SessionState where
  mode : GameMode
  board : Board
  xIsNext : Bool
  aiPlays : Mark
deriving DecidableEq, Repr

/-- `currentPlayer = xIsNext ? 'X' : 'O'`. -/
def currentPlayer (s : SessionState) : Mark :=
  if s.xIsNext then Mark.X else Mark.O

/-- `handlePlay(index)` from `App.js`: returns the state after the click.
Rejections (`return`) leave the state unchanged. -/
def handlePlay (s : SessionState) (index : Nat) : SessionState :=
  if (calculateWinner s.board).winner.isSome || isDraw s.board then s
  else if (jsGet s.board index).isSome then s
  else if s.mode = GameMode.AI ∧ currentPlayer s = s.aiPlays then s
  else
    { s with board := jsSet s.board index (some (currentPlayer s)),
             xIsNext := !s.xIsNext }

/-- The functional updates run by the AI-turn `setTimeout` callback once a
move has been selected (lines 197-203): `setBoard` keeps the board when the
target cell is occupied, otherwise writes `aiPlays` there; `setXIsNext`
flips unconditionally. -/
def deferredAiUpdate (aiPlays : Mark) (move : Nat) (b : Board) (xIsNext : Bool) :
    Board × Bool :=
  (if (jsGet b move).isSome then b else jsSet b move (some aiPlays), !xIsNext)

/-- The AI-turn effect of `App.js` (lines 189-208), run synchronously on a
state: the guards mirror the three early returns, then `aiMove` selects a
move and the `setTimeout` callback applies it. -/
def computerTurn (s : SessionState) (rc rs : Nat) : SessionState :=
  if s.mode ≠ GameMode.AI then s
  else if (calculateWinner s.board).winner.isSome || isDraw s.board then s
  else if currentPlayer s ≠ s.aiPlays then s
  else
    match aiMove s.board s.aiPlays rc rs with
    | none => s
    | some move =>
      let (b, x) := deferredAiUpdate s.aiPlays move s.board s.xIsNext
      { s with board := b, xIsNext := x }

/-- `resetGame` from `App.js`. -/
def resetGame (s : SessionState) : SessionState :=
  { s with board := List.replicate 9 none, xIsNext := true }

/-- `restartAndSwap` from `App.js`. -/
def restartAndSwap (s : SessionState) : SessionState :=
  { s with board := List.replicate 9 none, xIsNext := !s.xIsNext }

/-- `toggleAiSide` from `App.js`. -/
def toggleAiSide (s : SessionState) : SessionState :=
  { s with aiPlays := other s.aiPlays,
           board := List.replicate 9 none,
           xIsNext := true }

/-- `SetComputerMark(mark)`: the AI-side chips (lines 284-297) call
`toggleAiSide` only when the requested mark differs from the current one
(`if (aiPlays !== 'X') toggleAiSide()` and the symmetric `'O'` chip). -/
def setComputerMark (s : SessionState) (mark : Mark) : SessionState :=
  if s.aiPlays ≠ mark then toggleAiSide s else s

/-- The non-reset transitions of the session: a human click
(`handlePlay`) or the computer's turn effect. -/
inductive NonResetEvent where
  | applyMove (index : Nat) : NonResetEvent
  | computerStep (rc rs : Nat) : NonResetEvent
deriving DecidableEq, Repr

/-- One non-reset transition applied to a state. -/
def stepNonReset (s : SessionState) : NonResetEvent → SessionState
  | NonResetEvent.applyMove i => handlePlay s i
  | NonResetEvent.computerStep rc rs => computerTurn s rc rs

/-- A session state is terminal when `calculateWinner` reports a winner or
`isDraw` holds (`Won(mark)` or `Draw` in the spec). -/
def terminalState (s : SessionState) : Prop :=
  (calculateWinner s.board).winner.isSome = true ∨ isDraw s.board = true

/-- A session state is in progress when no winner is reported and the board
is not a draw. -/
def inProgress (s : SessionState) : Prop :=
  (calculateWinner s.board).winner = none ∧ isDraw s.board = false

/-- Modelled from the spec (section 4.1): a line is winning for `m` iff all
three of its cells are non-empty and equal to `m`.  Used as the
specification side of the refinement claim about `calculateWinner`. -/
def specLineWins (board : Board) (l : Nat × Nat × Nat) (m : Mark) : Prop :=
  jsGet board l.1 = some m ∧ jsGet board l.2.1 = some m ∧ jsGet board l.2.2 = some m

instance (board : Board) (l : Nat × Nat × Nat) (m : Mark) :
    Decidable (specLineWins board l m) := by
  unfold specLineWins; infer_instance

instance (s : SessionState) : Decidable (terminalState s) := by
  unfold terminalState; infer_instance

instance (s : SessionState) : Decidable (inProgress s) := by
  unfold inProgress; infer_instance

/-! Concrete boards and states used to instantiate the theorems below. -/

/-- The all-empty board, `Array(9).fill(null)`. -/
def emptyBoard : Board := List.replicate 9 none

/-- `X` on cells 0 and 1, `O` on cells 3 and 4: `X`'s only winning
placement is cell 2. -/
def twoInRowBoard : Board :=
  [some Mark.X, some Mark.X, none, some Mark.O, some Mark.O, none, none, none, none]

/-- `X` on cells 0 and 1, everything else empty: `O` has no winning
placement and must block at cell 2. -/
def blockBoard : Board :=
  [some Mark.X, some Mark.X, none, none, none, none, none, none, none]

/-- A full board with no completed line. -/
def drawBoard : Board :=
  [some Mark.X, some Mark.O, some Mark.X,
   some Mark.X, some Mark.O, some Mark.O,
   some Mark.O, some Mark.X, some Mark.X]

/-- A two-player in-progress state whose cell 0 is occupied. -/
def occupiedState : SessionState :=
  ⟨GameMode.PVP, some Mark.X :: List.replicate 8 none, false, Mark.O⟩

/-- A fresh two-player session, used to exercise `handlePlay` at an
out-of-range index. -/
def outOfRangeState : SessionState :=
  ⟨GameMode.PVP, emptyBoard, true, Mark.O⟩

/-- A terminal state: `X` has completed the top row. -/
def wonState : SessionState :=
  ⟨GameMode.AI,
   [some Mark.X, some Mark.X, some Mark.X, some Mark.O, some Mark.O, none, none, none, none],
   false, Mark.O⟩

/-! ## Helper lemmas -/

theorem mem_availableMoves {board : Board} {i : Nat} :
    i ∈ availableMoves board ↔ i < board.length ∧ jsGet board i = none := by
  simp [availableMoves, List.mem_filter, List.mem_range]

theorem getD_mod_mem {l : List Nat} (h : l.length ≠ 0) (k : Nat) :
    l.getD (k % l.length) 0 ∈ l := by
  have hlt : k % l.length < l.length := Nat.mod_lt _ (Nat.pos_of_ne_zero h)
  rw [List.getD_eq_getElem?_getD, List.getElem?_eq_getElem hlt]
  exact List.getElem_mem hlt

theorem getD_zero_mem {l : List Nat} (h : l ≠ []) : l.getD 0 0 ∈ l := by
  cases l with
  | nil => exact absurd rfl h
  | cons x xs => simp [List.getD]

theorem find?_eq_some_of_unique {α : Type} (p : α → Bool) (l : List α) (a : α)
    (ha : a ∈ l) (hpa : p a = true) (hu : ∀ b ∈ l, p b = true → b = a) :
    l.find? p = some a := by
  induction l with
  | nil => cases ha
  | cons x xs ih =>
    by_cases hx : p x = true
    · have hxa : x = a := hu x (List.mem_cons_self x xs) hx
      subst hxa
      simp [List.find?_cons_of_pos _ hx]
    · rw [List.find?_cons_of_neg _ (by simpa using hx)]
      apply ih
      · rcases List.mem_cons.mp ha with h | h
        · exact absurd (h ▸ hpa) hx
        · exact h
      · exact fun b hb hpb => hu b (List.mem_cons_of_mem _ hb) hpb

theorem cornersOf_subset {board : Board} (h9 : board.length = 9) :
    ∀ c ∈ cornersOf board, c ∈ availableMoves board := by
  intro c hc
  rw [cornersOf, List.mem_filter] at hc
  rw [mem_availableMoves]
  refine ⟨?_, by simpa using hc.2⟩
  have h := hc.1
  simp only [List.mem_cons, List.not_mem_nil, or_false] at h
  rcases h with rfl | rfl | rfl | rfl <;> omega

theorem sidesOf_subset {board : Board} (h9 : board.length = 9) :
    ∀ c ∈ sidesOf board, c ∈ availableMoves board := by
  intro c hc
  rw [sidesOf, List.mem_filter] at hc
  rw [mem_availableMoves]
  refine ⟨?_, by simpa using hc.2⟩
  have h := hc.1
  simp only [List.mem_cons, List.not_mem_nil, or_false] at h
  rcases h with rfl | rfl | rfl | rfl <;> omega

theorem terminal_guard {s : SessionState} (hs : terminalState s) :
    ((calculateWinner s.board).winner.isSome || isDraw s.board) = true := by
  rcases hs with h | h <;> simp [h]

theorem stepNonReset_terminal (s : SessionState) (hs : terminalState s)
    (e : NonResetEvent) : stepNonReset s e = s := by
  have hcond := terminal_guard hs
  cases e with
  | applyMove i => simp [stepNonReset, handlePlay, hcond]
  | computerStep rc rs => simp [stepNonReset, computerTurn, hcond]

/-! ## Claim theorems -/

/-- C6: for every session state whose status is `InProgress` and every index
0-8 whose cell is already occupied, `handlePlay` leaves the whole state —
in particular the board and `xIsNext` — unchanged. -/
theorem claim6_occupied_noop (s : SessionState) (index : Nat) (_hi : index ≤ 8)
    (hs : inProgress s) (hocc : (jsGet s.board index).isSome = true) :
    handlePlay s index = s := by
  obtain ⟨hw, hd⟩ := hs
  simp [handlePlay, hw, hd, hocc]

/-- Witness for C6 at a concrete in-progress state with cell 0 occupied. -/
theorem claim6_occupied_noop_witness :
    (0 : Nat) ≤ 8 ∧ handlePlay occupiedState 0 = occupiedState :=
  ⟨by decide,
   claim6_occupied_noop occupiedState 0 (by decide) (by decide) (by decide)⟩

/-- C8: in a terminal session state (won or drawn board), any sequence of
`ApplyMove`/`ComputerTurn` transitions — every non-Reset transition — leaves
the whole state (board, `xIsNext`, `mode`, `aiPlays`) unchanged. -/
theorem claim8_terminal_frozen (s : SessionState) (hs : terminalState s)
    (evts : List NonResetEvent) : evts.foldl stepNonReset s = s := by
  induction evts with
  | nil => rfl
  | cons e es ih =>
    rw [List.foldl_cons, stepNonReset_terminal s hs e]
    exact ih

/-- Witness for C8 at a concrete won state and a concrete event sequence. -/
theorem claim8_terminal_frozen_witness :
    [NonResetEvent.applyMove 5, NonResetEvent.computerStep 0 0,
     NonResetEvent.applyMove 9].foldl stepNonReset wonState = wonState :=
  claim8_terminal_frozen wonState (by decide) _

/-- C9: requesting the computer mark that is already current is a no-op:
the chip guard skips `toggleAiSide`, so `aiPlays`, the board and `xIsNext`
are all unchanged and no reset happens. -/
theorem claim9_setComputerMark_same_noop (s : SessionState) :
    setComputerMark s s.aiPlays = s := by
  simp [setComputerMark]

/-- C10: when the deferred computer-move callback fires on a board whose
target cell is meanwhile occupied, the `setBoard` updater returns the board
unchanged, yet `setXIsNext` still flips the turn. -/
theorem claim10_stale_move_flips_turn (p : Mark) (move : Nat) (b : Board)
    (x : Bool) (h : (jsGet b move).isSome = true) :
    deferredAiUpdate p move b x = (b, !x) := by
  simp [deferredAiUpdate, h]

/-- Witness for C10 at a concrete occupied cell. -/
theorem claim10_stale_move_flips_turn_witness :
    deferredAiUpdate Mark.O 0 blockBoard true = (blockBoard, false) :=
  claim10_stale_move_flips_turn Mark.O 0 blockBoard true (by decide)

/-- C5: on a 9-cell board, `isDraw` holds iff `calculateWinner` reports no
winner and no cell of the board is empty (equivalently, `availableMoves` is
empty). -/
theorem claim5_isDraw_iff (board : Board) (h9 : board.length = 9) :
    isDraw board = true ↔
      ((calculateWinner board).winner = none ∧ ∀ i, i < 9 → jsGet board i ≠ none) := by
  have h2 : availableMoves board = [] ↔ ∀ i, i < 9 → jsGet board i ≠ none := by
    unfold availableMoves
    rw [List.filter_eq_nil_iff]
    constructor
    · intro h i hi
      have := h i (by rw [List.mem_range, h9]; exact hi)
      simpa using this
    · intro h a ha
      rw [List.mem_range, h9] at ha
      simpa using h a ha
  unfold isDraw
  rw [Bool.and_eq_true, decide_eq_true_eq, Option.isNone_iff_eq_none,
    List.length_eq_zero, h2]

/-- Witness for C5 at a concrete full drawn board. -/
theorem claim5_isDraw_iff_witness :
    (calculateWinner drawBoard).winner = none ∧ ∀ i, i < 9 → jsGet drawBoard i ≠ none :=
  (claim5_isDraw_iff drawBoard rfl).mp (by decide)

/-- C7 counterexample: at a fresh two-player state, `handlePlay 9` is NOT
rejected — the write `copy[9] = currentPlayer` extends the board to length
10 and the turn still flips, so neither the board (nor its length 9) nor
`xIsNext` is preserved. -/
theorem claim7_out_of_range_cex :
    outOfRangeState.board.length = 9 ∧ outOfRangeState.xIsNext = true ∧
    (handlePlay outOfRangeState 9).board.length = 10 ∧
    (handlePlay outOfRangeState 9).xIsNext = false := by
  decide

/-- C7 amended: `handlePlay` at an index ≥ 9 on a 9-cell board never throws
(it is a total function), but it is not always a rejection: in a terminal
state it is a no-op, while in an in-progress state in which the move is not
suppressed by the computer-turn guard the mark is written at the requested
index — extending the board to length `index + 1` — and `xIsNext` flips. -/
theorem claim7_out_of_range_amended (s : SessionState) (i : Nat) (hi : 9 ≤ i)
    (h9 : s.board.length = 9) :
    (inProgress s → ¬(s.mode = GameMode.AI ∧ currentPlayer s = s.aiPlays) →
      handlePlay s i =
        { s with board := jsSet s.board i (some (currentPlayer s)),
                 xIsNext := !s.xIsNext } ∧
      (handlePlay s i).board.length = i + 1) ∧
    (terminalState s → handlePlay s i = s) := by
  have hget : jsGet s.board i = none := by
    unfold jsGet
    exact List.getD_eq_default _ _ (by omega)
  constructor
  · rintro ⟨hw, hd⟩ hng
    have h1 : handlePlay s i =
        { s with board := jsSet s.board i (some (currentPlayer s)),
                 xIsNext := !s.xIsNext } := by
      simp [handlePlay, hw, hd, hget, hng]
    refine ⟨h1, ?_⟩
    rw [h1]
    show (jsSet s.board i (some (currentPlayer s))).length = i + 1
    rw [jsSet, if_neg (by omega)]
    simp only [List.length_append, List.length_replicate, List.length_cons,
      List.length_nil]
    omega
  · intro hs
    simp [handlePlay, terminal_guard hs]

/-- Witness for the amended C7 at the fresh two-player state and index 9. -/
theorem claim7_out_of_range_amended_witness :
    (9 : Nat) ≤ 9 ∧ (handlePlay outOfRangeState 9).board.length = 9 + 1 :=
  ⟨le_refl 9,
   ((claim7_out_of_range_amended outOfRangeState 9 (le_refl 9) rfl).1
      (by decide) (by decide)).2⟩

theorem aiMove_isSome (board : Board) (p : Mark) (rc rs : Nat)
    (h : availableMoves board ≠ []) : (aiMove board p rc rs).isSome = true := by
  have h0 : ¬ (availableMoves board).length = 0 := by
    simpa [List.length_eq_zero] using h
  unfold aiMove
  rw [if_neg h0]
  repeat (first | rfl | split)

/-- C2: on a 9-cell board, `aiMove` returns `none` iff `availableMoves` is
empty, and any move it returns is a member of `availableMoves` — an empty
cell of the input board. -/
theorem claim2_aiMove_legal (board : Board) (p : Mark) (rc rs : Nat)
    (h9 : board.length = 9) :
    (aiMove board p rc rs = none ↔ availableMoves board = []) ∧
    ∀ m, aiMove board p rc rs = some m → m ∈ availableMoves board := by
  constructor
  · constructor
    · intro h
      by_contra hne
      have := aiMove_isSome board p rc rs hne
      rw [h] at this
      exact Bool.noConfusion this
    · intro h
      unfold aiMove
      rw [if_pos (by rw [h]; rfl)]
  · intro m hm
    by_cases h0 : (availableMoves board).length = 0
    · rw [aiMove, if_pos h0] at hm
      exact Option.noConfusion hm
    · have hne : availableMoves board ≠ [] := by
        simpa [List.length_eq_zero] using h0
      rw [aiMove, if_neg h0] at hm
      split at hm
      case _ m' heq =>
        cases hm
        exact List.mem_of_find?_eq_some heq
      case _ =>
        split at hm
        case _ m' heq =>
          cases hm
          exact List.mem_of_find?_eq_some heq
        case _ =>
          split at hm
          case isTrue hc =>
            cases hm
            exact mem_availableMoves.mpr ⟨by omega, hc⟩
          case isFalse hc =>
            split at hm
            case isTrue hcor =>
              cases hm
              exact cornersOf_subset h9 _ (getD_mod_mem hcor rc)
            case isFalse hcor =>
              split at hm
              case isTrue hsid =>
                cases hm
                exact sidesOf_subset h9 _ (getD_mod_mem hsid rs)
              case isFalse hsid =>
                cases hm
                exact getD_zero_mem hne

/-- Witness for C2 on the empty board (center move). -/
theorem claim2_aiMove_legal_witness :
    4 ∈ availableMoves emptyBoard :=
  (claim2_aiMove_legal emptyBoard Mark.O 0 0 rfl).2 4 (by decide)

/-- C3: when exactly one available move lets the computer's mark win
immediately, `aiMove` returns exactly that move, whatever the random
draws. -/
theorem claim3_aiMove_takes_win (board : Board) (p : Mark) (m rc rs : Nat)
    (hm : m ∈ availableMoves board)
    (hw : (calculateWinner (jsSet board m (some p))).winner = some p)
    (hu : ∀ m', m' ∈ availableMoves board →
      (calculateWinner (jsSet board m' (some p))).winner = some p → m' = m) :
    aiMove board p rc rs = some m := by
  have h0 : ¬ (availableMoves board).length = 0 := by
    intro h
    rw [List.length_eq_zero] at h
    rw [h] at hm
    cases hm
  have hfind : (availableMoves board).find? (winsAt board p) = some m :=
    find?_eq_some_of_unique _ _ _ hm (by simp [winsAt, hw])
      (fun b hb hpb => hu b hb (by simpa [winsAt] using hpb))
  rw [aiMove, if_neg h0, hfind]

/-- Witness for C3: with `X` on cells 0 and 1 (and `O` on 3 and 4), the
unique winning placement for `X` is cell 2, and `aiMove` picks it. -/
theorem claim3_aiMove_takes_win_witness :
    aiMove twoInRowBoard Mark.X 0 0 = some 2 :=
  claim3_aiMove_takes_win twoInRowBoard Mark.X 2 0 0
    (by decide) (by decide) (by decide)

/-- C4: when no available move lets the computer's mark win but exactly one
available move would let the opposing (human) mark win, `aiMove` returns
that blocking cell, whatever the random draws. -/
theorem claim4_aiMove_blocks (board : Board) (p : Mark) (m rc rs : Nat)
    (hnw : ∀ m', m' ∈ availableMoves board →
      (calculateWinner (jsSet board m' (some p))).winner ≠ some p)
    (hm : m ∈ availableMoves board)
    (hb : (calculateWinner (jsSet board m (some (other p)))).winner = some (other p))
    (hu : ∀ m', m' ∈ availableMoves board →
      (calculateWinner (jsSet board m' (some (other p)))).winner = some (other p) →
      m' = m) :
    aiMove board p rc rs = some m := by
  have h0 : ¬ (availableMoves board).length = 0 := by
    intro h
    rw [List.length_eq_zero] at h
    rw [h] at hm
    cases hm
  have hnofind : (availableMoves board).find? (winsAt board p) = none :=
    List.find?_eq_none.mpr (fun x hx => by simpa [winsAt] using hnw x hx)
  have hfind : (availableMoves board).find? (winsAt board (other p)) = some m :=
    find?_eq_some_of_unique _ _ _ hm (by simp [winsAt, hb])
      (fun b hb' hpb => hu b hb' (by simpa [winsAt] using hpb))
  rw [aiMove, if_neg h0, hnofind, hfind]

/-- Witness for C4: with `X` on cells 0 and 1 only, `O` has no winning
placement and the unique block is cell 2; `aiMove` picks it. -/
theorem claim4_aiMove_blocks_witness :
    aiMove blockBoard Mark.O 0 0 = some 2 :=
  claim4_aiMove_blocks blockBoard Mark.O 2 0 0
    (by decide) (by decide) (by decide) (by decide)

theorem winScan_cons_hit (board : Board) (a b c : Nat)
    (rest : List (Nat × Nat × Nat)) (m : Mark)
    (h : specLineWins board (a, b, c) m) :
    winScan board ((a, b, c) :: rest) = ⟨some m, some (a, b, c)⟩ := by
  obtain ⟨h1, h2, h3⟩ := h
  simp [winScan, h1, h2, h3]

theorem winScan_cons_miss (board : Board) (a b c : Nat)
    (rest : List (Nat × Nat × Nat))
    (h : ∀ m, ¬ specLineWins board (a, b, c) m) :
    winScan board ((a, b, c) :: rest) = winScan board rest := by
  cases hma : jsGet board a with
  | none => simp [winScan, hma]
  | some m0 =>
    have hnc : ¬(jsGet board b = some m0 ∧ jsGet board c = some m0) :=
      fun hc => h m0 ⟨hma, hc.1, hc.2⟩
    simp [winScan, hma, hnc]

theorem winScan_eq_some_iff (board : Board) (m : Mark) (l : Nat × Nat × Nat) :
    ∀ ls : List (Nat × Nat × Nat),
      winScan board ls = ⟨some m, some l⟩ ↔
        ∃ l₁ l₂, ls = l₁ ++ l :: l₂ ∧ specLineWins board l m ∧
          ∀ l' ∈ l₁, ∀ m', ¬ specLineWins board l' m' := by
  intro ls
  induction ls with
  | nil =>
    constructor
    · intro h
      exact absurd h (by simp [winScan])
    · rintro ⟨l₁, l₂, h, -, -⟩
      exact absurd h.symm (by simp)
  | cons hd rest ih =>
    obtain ⟨a, b, c⟩ := hd
    by_cases hhit : ∃ m0, specLineWins board (a, b, c) m0
    · obtain ⟨m0, hm0⟩ := hhit
      rw [winScan_cons_hit board a b c rest m0 hm0]
      constructor
      · intro h
        simp only [WinResult.mk.injEq, Option.some.injEq] at h
        obtain ⟨rfl, rfl⟩ := h
        exact ⟨[], rest, rfl, hm0, by simp⟩
      · rintro ⟨l₁, l₂, hls, hwin, hmiss⟩
        cases l₁ with
        | nil =>
          simp only [List.nil_append, List.cons.injEq] at hls
          obtain ⟨rfl, rfl⟩ := hls
          have hm : m = m0 := by
            have h1 := hwin.1
            have h2 := hm0.1
            rw [h1] at h2
            exact Option.some.inj h2
          rw [hm]
        | cons x xs =>
          simp only [List.cons_append, List.cons.injEq] at hls
          exact absurd (hls.1 ▸ hm0)
            (hmiss x (List.mem_cons_self x xs) m0)
    · push_neg at hhit
      rw [winScan_cons_miss board a b c rest hhit, ih]
      constructor
      · rintro ⟨l₁, l₂, rfl, hwin, hmiss⟩
        refine ⟨(a, b, c) :: l₁, l₂, rfl, hwin, ?_⟩
        intro l' hl' m'
        rcases List.mem_cons.mp hl' with rfl | h
        · exact hhit m'
        · exact hmiss l' h m'
      · rintro ⟨l₁, l₂, hls, hwin, hmiss⟩
        cases l₁ with
        | nil =>
          simp only [List.nil_append, List.cons.injEq] at hls
          exact absurd (hls.1 ▸ hwin) (hhit m)
        | cons x xs =>
          simp only [List.cons_append, List.cons.injEq] at hls
          obtain ⟨hx, hrest⟩ := hls
          exact ⟨xs, l₂, hrest, hwin,
            fun l' hl' m' => hmiss l' (List.mem_cons_of_mem _ hl') m'⟩

theorem winScan_eq_none_iff (board : Board) :
    ∀ ls : List (Nat × Nat × Nat),
      winScan board ls = ⟨none, none⟩ ↔
        ∀ l ∈ ls, ∀ m, ¬ specLineWins board l m := by
  intro ls
  induction ls with
  | nil => simp [winScan]
  | cons hd rest ih =>
    obtain ⟨a, b, c⟩ := hd
    by_cases hhit : ∃ m0, specLineWins board (a, b, c) m0
    · obtain ⟨m0, hm0⟩ := hhit
      rw [winScan_cons_hit board a b c rest m0 hm0]
      constructor
      · intro h
        exact absurd h (by simp)
      · intro h
        exact absurd hm0 (h (a, b, c) (List.mem_cons_self _ _) m0)
    · push_neg at hhit
      rw [winScan_cons_miss board a b c rest hhit, ih]
      constructor
      · intro h l' hl' m'
        rcases List.mem_cons.mp hl' with rfl | hmem
        · exact hhit m'
        · exact h l' hmem m'
      · intro h l' hl' m'
        exact h l' (List.mem_cons_of_mem _ hl') m'

/-- C1: on a 9-cell board, `calculateWinner` reports `⟨some m, some l⟩` iff
`l` is a member of the fixed list `LINES` (rows, then columns, then
diagonals, in that order), all three cells of `l` hold `m`, and no line
earlier in `LINES` is completed by any mark — i.e. the first matching line
in scan order is the one returned; and it reports `⟨none, none⟩` iff no
line of `LINES` is completed. -/
theorem claim1_calculateWinner_spec (board : Board) (_h9 : board.length = 9) :
    (∀ m l, calculateWinner board = ⟨some m, some l⟩ ↔
      ∃ l₁ l₂, LINES = l₁ ++ l :: l₂ ∧ specLineWins board l m ∧
        ∀ l' ∈ l₁, ∀ m', ¬ specLineWins board l' m') ∧
    (calculateWinner board = ⟨none, none⟩ ↔
      ∀ l ∈ LINES, ∀ m, ¬ specLineWins board l m) :=
  ⟨fun m l => winScan_eq_some_iff board m l LINES,
   winScan_eq_none_iff board LINES⟩

/-- Witness for C1 on the empty board: no line is completed, so
`calculateWinner` reports no winner. -/
theorem claim1_calculateWinner_spec_witness :
    calculateWinner emptyBoard = ⟨none, none⟩ :=
  (claim1_calculateWinner_spec emptyBoard rfl).2.mpr (by decide)
